import Mathlib

/-!
Shallow embedding of `src/alembic/autogenerate.py` (the autogenerate diff
engine and renderer) together with the external data it consumes, and
theorems settling the specification claims about it.

Modelling conventions:
* Python strings are Lean `String`s; `repr` of a name string is modelled as
  wrapping it in single quotes (names are assumed not to contain quote or
  escape characters).
* Python `set(...)` iteration order is implementation defined in CPython; the
  model fixes it to name-sorted order (the reading most favourable to the
  spec), via `pySet` below.  `dict` lookups built by comprehensions use the
  last binding for a key, as CPython does.
* SQLAlchemy types are modelled by `TypeDesc`: an affinity tag plus the
  length / precision / scale parameters the comparators read, plus the text
  that `repr(type)` would produce (used by the `%r` render sites).
* Python `None`-able booleans are `Option Bool`; `is` / `is not` on
  `True` / `False` / `None` coincides with equality on `Option Bool` because
  those three values are interned singletons.
* Fallible Python code (attribute errors, missing names, missing dict keys)
  is modelled with `Except PyError`.
-/

namespace Alembic

/-! ## Python-flavoured helpers -/

/-- Python `repr` of a plain name string (assumed free of quotes/escapes). -/
def pyReprStr (s : String) : String := "'" ++ s ++ "'"

/-- Python `repr`/`%r` of a `True`/`False`/`None` value. -/
def pyReprOptBool : Option Bool → String
  | none => "None"
  | some true => "True"
  | some false => "False"

/-- Python `sep.join(xs)`. -/
def joinWith (sep : String) : List String → String
  | [] => ""
  | [x] => x
  | x :: y :: r => x ++ sep ++ joinWith sep (y :: r)

/-- Lexicographic comparison of char lists by code point: Python's string
ordering (written out so that it evaluates inside the kernel). -/
def charListLe : List Char → List Char → Bool
  | [], _ => true
  | _ :: _, [] => false
  | a :: as, b :: bs =>
    if a.toNat < b.toNat then true
    else if b.toNat < a.toNat then false
    else charListLe as bs

/-- Python string `<=` (lexicographic by code point). -/
def strLe (a b : String) : Bool := charListLe a.data b.data

/-- Insert a string into a (sorted) list, keeping it sorted. -/
def insertStr (a : String) : List String → List String
  | [] => [a]
  | b :: r => if strLe a b then a :: b :: r else b :: insertStr a r

/-- Lexicographic insertion sort on strings; models Python `sorted` on `str`. -/
def sortStrings : List String → List String
  | [] => []
  | a :: r => insertStr a (sortStrings r)

/-- Model of iterating a CPython `set` built from the names in `l`: each
distinct element once, in sorted order (CPython leaves the true order
unspecified; the model fixes it to the name-sorted order the spec asserts). -/
def pySet (l : List String) : List String := sortStrings l.dedup

/-- Python `a.difference(b)` over name sets, in set-iteration order. -/
def setDiff (a b : List String) : List String :=
  (pySet a).filter (fun x => decide (x ∉ b))

/-- Python `a.intersection(b)` over name sets, in set-iteration order. -/
def setIntersect (a b : List String) : List String :=
  (pySet a).filter (fun x => decide (x ∈ b))

/-- Concatenation of the lists produced for each element (a Python loop that
`extend`s an accumulator). -/
def joinMap (f : α → List β) : List α → List β
  | [] => []
  | a :: r => f a ++ joinMap f r

/-! ## Data model -/

/-- Coarse type category; SQLAlchemy `_type_affinity` classes. -/
inductive Affinity where
  | str
  | num
  | other (tag : String)
deriving DecidableEq, Repr

/-- A SQLAlchemy type as the diff engine observes it: affinity plus the
parameters the registered comparators read, plus the text `repr(type)`
produces (used at every `%r` render site). -/
structure TypeDesc where
  affinity : Affinity
  length : Option Nat
  precision : Option Nat
  scale : Option Nat
  rendered : String
deriving DecidableEq, Repr

/-- A reflected column record from `inspector.get_columns` (dict with keys
`name`, `type`, `nullable`). -/
structure ConnColumn where
  name : String
  type : TypeDesc
  nullable : Option Bool
deriving DecidableEq, Repr

/-- A declared metadata `Column`. -/
structure Column where
  name : String
  type : TypeDesc
  nullable : Option Bool
  server_default : Option String
deriving DecidableEq, Repr

/-- A table constraint, as classified by the renderer registry.
`primaryKey` holds the column keys; `foreignKey` holds, per element, the
parent column key and the `_get_colspec()` string; `check` holds the name
only (the source renders a fixed placeholder body); `unsupported` is any
constraint type without a registered renderer. -/
inductive Constraint where
  | primaryKey (colKeys : List String) (name : Option String)
  | foreignKey (elements : List (String × String)) (name : Option String)
  | check (name : Option String)
  | unsupported (tag : String)
deriving DecidableEq, Repr

/-- A declared metadata `Table`: name, ordered columns, constraints. -/
structure Table where
  name : String
  c : List Column
  constraints : List Constraint
deriving DecidableEq, Repr

/-- `MetaData`: its `tables` mapping, keyed by table name. -/
structure MetaData where
  tables : List Table
deriving DecidableEq, Repr

/-- The reflectable live schema: what `Inspector.from_engine(connection)`
exposes (`get_table_names`, and `get_columns` per table). -/
structure Snapshot where
  tables : List (String × List ConnColumn)
deriving DecidableEq, Repr

/-- One diff record.  The source builds these as Python tuples whose first
element is the tag string returned by `Diff.tag`. -/
inductive Diff where
  | upgradeTable (table : Table)
  | downgradeTable (tname : String)
  | upgradeColumn (tname : String) (column : Column)
  | downgradeColumn (tname : String) (cname : String)
  | upgradeType (tname : String) (cname : String) (type : TypeDesc)
  | downgradeType (tname : String) (cname : String) (type : TypeDesc)
  | upgradeNullable (tname : String) (cname : String) (nullable : Option Bool)
  | downgradeNullable (tname : String) (cname : String) (nullable : Option Bool)
deriving DecidableEq, Repr

/-- The first element of the diff tuple, as written at each emission site. -/
def Diff.tag : Diff → String
  | .upgradeTable _ => "upgrade_table"
  | .downgradeTable _ => "downgrade_table"
  | .upgradeColumn _ _ => "upgrade_column"
  | .downgradeColumn _ _ => "downgrade_column"
  | .upgradeType _ _ _ => "upgrade_type"
  | .downgradeType _ _ _ => "downgrade_type"
  | .upgradeNullable _ _ _ => "upgrade_nullable"
  | .downgradeNullable _ _ _ => "downgrade_nullable"

/-- Python exception classes raised by the modelled code. -/
inductive PyError where
  | attributeError (msg : String)
  | nameError (msg : String)
  | commandError (msg : String)
  | keyError (msg : String)
  | typeError (msg : String)
deriving DecidableEq, Repr

/-! ## Dict helpers (`{k: v}` comprehensions and mappings keyed by name) -/

/-- Lookup in the dict `dict((rec["name"], rec) for rec in cols)`: last
binding for a key wins, as in CPython. -/
def connColGet (cols : List ConnColumn) (cname : String) : Option ConnColumn :=
  cols.reverse.find? (fun r => r.name == cname)

/-- Lookup in `dict((c.name, c) for c in metadata_table.c)` (also backs
`metadata_table.c[colname]`): last binding wins. -/
def metaColGet (t : Table) (cname : String) : Option Column :=
  t.c.reverse.find? (fun col => col.name == cname)

/-- Lookup in the `metadata.tables` mapping (unique keys by construction). -/
def metaTablesGet (m : MetaData) (tname : String) : Option Table :=
  m.tables.find? (fun t => t.name == tname)

/-- Lookup in `conn_column_info` / `inspector.get_columns(tname)`. -/
def connColsGet (s : Snapshot) (tname : String) : Option (List ConnColumn) :=
  (s.tables.find? (fun p => p.1 == tname)).map (·.2)

/-! ## Element comparison (source lines 74-142) -/

/-- `_string_compare(t1, t2)`: `t1.length is not None and t1.length != t2.length`. -/
def _string_compare (t1 t2 : TypeDesc) : Bool :=
  t1.length.isSome && t1.length != t2.length

/-- `_numeric_compare(t1, t2)`. -/
def _numeric_compare (t1 t2 : TypeDesc) : Bool :=
  (t1.precision.isSome && t1.precision != t2.precision) ||
  (t1.scale.isSome && t1.scale != t2.scale)

/-- `_type_comparators.get(affinity, None)`: registry keyed by the affinity
class, holding comparators for `String` and `Numeric` only. -/
def _type_comparators : Affinity → Option (TypeDesc → TypeDesc → Bool)
  | .str => some _string_compare
  | .num => some _numeric_compare
  | .other _ => none

/-- `_compare_type`.  `conn_type._compare_type_affinity(metadata_type)` is
SQLAlchemy's affinity-class identity test, modelled as equality of the
affinity tags; `comparator and comparator(metadata_type, conn_type)` is
Python short-circuit `and` (a `None` comparator yields a falsy result). -/
def _compare_type (tname cname : String) (conn_type metadata_type : TypeDesc) :
    List Diff :=
  let isdiff :=
    if conn_type.affinity = metadata_type.affinity then
      match _type_comparators conn_type.affinity with
      | some comparator => comparator metadata_type conn_type
      | none => false
    else
      true
  if isdiff then
    [Diff.upgradeType tname cname metadata_type,
     Diff.downgradeType tname cname conn_type]
  else
    []

/-- `_compare_nullable`: `if conn_col_nullable is not metadata_col_nullable`.
Identity coincides with equality on the interned `True`/`False`/`None`. -/
def _compare_nullable (tname cname : String)
    (conn_col_nullable metadata_col_nullable : Option Bool) : List Diff :=
  if conn_col_nullable ≠ metadata_col_nullable then
    [Diff.upgradeNullable tname cname metadata_col_nullable,
     Diff.downgradeNullable tname cname conn_col_nullable]
  else
    []

/-- The body of the `for colname in ...intersection(...)` loop of
`_compare_columns`: look up `metadata_table.c[colname]` and
`conn_table[colname]`, then run the type comparison followed by the
nullability comparison. -/
def alterSection (tname : String) (conn_table : List ConnColumn)
    (metadata_table : Table) (colname : String) : List Diff :=
  match metaColGet metadata_table colname, connColGet conn_table colname with
  | some metadata_col, some conn_col =>
      _compare_type tname colname conn_col.type metadata_col.type
      ++ _compare_nullable tname colname conn_col.nullable
          metadata_col.nullable
  | _, _ => []

/-- `_compare_columns(tname, conn_table, metadata_table, diffs)`: the
diffs it appends, in order. -/
def _compare_columns (tname : String) (conn_table : List ConnColumn)
    (metadata_table : Table) : List Diff :=
  let metadata_col_names := metadata_table.c.map (·.name)
  let conn_col_names := conn_table.map (·.name)
  (setDiff metadata_col_names conn_col_names).filterMap
      (fun cname => (metaColGet metadata_table cname).map
        (Diff.upgradeColumn tname))
  ++ (setDiff conn_col_names metadata_col_names).map
      (Diff.downgradeColumn tname)
  ++ joinMap (alterSection tname conn_table metadata_table)
      (setIntersect metadata_col_names conn_col_names)

/-- The body of the `for tname in existing_tables` loop of
`_produce_net_changes`: look up `conn_column_info[tname]` and
`metadata.tables[tname]`, then run `_compare_columns`. -/
def tableSection (connection : Snapshot) (metadata : MetaData)
    (tname : String) : List Diff :=
  match connColsGet connection tname, metaTablesGet metadata tname with
  | some conn_cols, some metadata_table =>
      _compare_columns tname conn_cols metadata_table
  | _, _ => []

/-- `_produce_net_changes(connection, metadata, diffs)`: the full ordered
diff sequence it appends (`inspector.get_table_names()` and
`inspector.get_columns` read the snapshot). -/
def _produce_net_changes (connection : Snapshot) (metadata : MetaData) :
    List Diff :=
  let conn_table_names := connection.tables.map (·.1)
  let metadata_table_names := metadata.tables.map (·.name)
  (setDiff metadata_table_names conn_table_names).filterMap
      (fun tname => (metaTablesGet metadata tname).map Diff.upgradeTable)
  ++ (setDiff conn_table_names metadata_table_names).map Diff.downgradeTable
  ++ joinMap (tableSection connection metadata)
      (setIntersect conn_table_names metadata_table_names)

/-! ## Render python (source lines 147-267) -/

/-- `_render_constraint` dispatch target for `PrimaryKeyConstraint`. -/
def _render_primary_key (colKeys : List String) (name : Option String) :
    String :=
  let opts := match name with
    | some n => if n ≠ "" then [("name", n)] else []
    | none => []
  "PrimaryKeyConstraint(" ++
    joinWith ", " (colKeys ++ opts.map (fun kv => kv.1 ++ "=" ++ kv.2)) ++ ")"

/-- `_render_constraint` dispatch target for `ForeignKeyConstraint`. -/
def _render_foreign_key (elements : List (String × String))
    (name : Option String) : String :=
  let opts := match name with
    | some n => if n ≠ "" then [("name", n)] else []
    | none => []
  "ForeignKeyConstraint([" ++ joinWith ", " (elements.map (·.1)) ++ "], [" ++
    joinWith ", " (elements.map (fun e => pyReprStr e.2)) ++ "], " ++
    joinWith ", " (opts.map (fun kv => kv.1 ++ "=" ++ kv.2)) ++ ")"

/-- `_render_check_constraint`: builds (and discards) the opts list, then
returns a fixed placeholder. -/
def _render_check_constraint (_name : Option String) : String :=
  "CheckConstraint('TODO')"

/-- `_render_constraint`: looks the constraint type up in
`_constraint_renderers` and returns `None` for unregistered types. -/
def _render_constraint : Constraint → Option String
  | .primaryKey colKeys name => some (_render_primary_key colKeys name)
  | .foreignKey elements name => some (_render_foreign_key elements name)
  | .check name => some (_render_check_constraint name)
  | .unsupported _ => none

/-- `_render_col(column)`: `server_default` is appended when truthy (a
non-empty string), `nullable` when not `None`; `%s` of a bool prints
`True`/`False`. -/
def _render_col (column : Column) : String :=
  let opts :=
    (match column.server_default with
      | some d => if d ≠ "" then [("server_default", d)] else []
      | none => [])
    ++ (match column.nullable with
      | some b => [("nullable", if b then "True" else "False")]
      | none => [])
  "Column(" ++ pyReprStr column.name ++ ", " ++ column.type.rendered ++ ", " ++
    joinWith ", " (opts.map (fun kv => kv.1 ++ "=" ++ kv.2)) ++ ")"

/-- `_upgrade_table(table)`: the `create_table` template with the rendered
columns in declaration order followed by the classifiable constraints'
renderings, `sorted` lexicographically; `None` renderings are filtered out. -/
def _upgrade_table (table : Table) : String :=
  let args := joinWith ",\n"
    (table.c.map _render_col ++
      sortStrings ((table.constraints.map _render_constraint).filterMap id))
  "create_table(" ++ pyReprStr table.name ++ ", \n        " ++ args ++
    "\n    )\n"

/-- `_downgrade_table(tname)`. -/
def _downgrade_table (tname : String) : String :=
  "drop_table(" ++ pyReprStr tname ++ ")"

/-- `_upgrade_column(tname, column)`: the body calls `_render_column`, a name
that is defined nowhere in the module (only `_render_col` exists), so the
call raises `NameError` before any formatting happens. -/
def _upgrade_column (_tname : String) (_column : Column) :
    Except PyError String :=
  .error (.nameError "name '_render_column' is not defined")

/-- `_downgrade_column(tname, cname)`. -/
def _downgrade_column (tname cname : String) : String :=
  "drop_column(" ++ pyReprStr tname ++ ", " ++ pyReprStr cname ++ ")"

/-- `_up_or_downgrade_type(tname, cname, type_)`. -/
def _up_or_downgrade_type (tname cname : String) (type_ : TypeDesc) : String :=
  "alter_column(" ++ pyReprStr tname ++ ", " ++ pyReprStr cname ++ ", type=" ++
    type_.rendered ++ ")"

/-- `_up_or_downgrade_nullable(tname, cname, nullable)`. -/
def _up_or_downgrade_nullable (tname cname : String) (nullable : Option Bool) :
    String :=
  "alter_column(" ++ pyReprStr tname ++ ", " ++ pyReprStr cname ++
    ", nullable=" ++ pyReprOptBool nullable ++ ")"

/-- The values stored in the `_commands` dict. -/
inductive Renderer where
  | upgradeTableR
  | downgradeTableR
  | upgradeColumnR
  | downgradeColumnR
  | upOrDowngradeTypeR
  | upOrDowngradeNullableR
deriving DecidableEq, Repr

/-- `cmd(*diff[1:])`: apply a renderer to a diff tuple's payload; an arity or
shape mismatch is a `TypeError`. -/
def Renderer.run : Renderer → Diff → Except PyError String
  | .upgradeTableR, .upgradeTable t => .ok (_upgrade_table t)
  | .downgradeTableR, .downgradeTable n => .ok (_downgrade_table n)
  | .upgradeColumnR, .upgradeColumn t col => _upgrade_column t col
  | .downgradeColumnR, .downgradeColumn t c => .ok (_downgrade_column t c)
  | .upOrDowngradeTypeR, .upgradeType t c ty =>
      .ok (_up_or_downgrade_type t c ty)
  | .upOrDowngradeTypeR, .downgradeType t c ty =>
      .ok (_up_or_downgrade_type t c ty)
  | .upOrDowngradeNullableR, .upgradeNullable t c n =>
      .ok (_up_or_downgrade_nullable t c n)
  | .upOrDowngradeNullableR, .downgradeNullable t c n =>
      .ok (_up_or_downgrade_nullable t c n)
  | _, _ => .error (.typeError "argument mismatch")

/-- The `_commands` dict, entries in source order — including the literal
`'downgrde_type'` key exactly as written at source line 205. -/
def _commands : List (String × Renderer) :=
  [("upgrade_table", .upgradeTableR),
   ("downgrade_table", .downgradeTableR),
   ("upgrade_column", .upgradeColumnR),
   ("downgrade_column", .downgradeColumnR),
   ("upgrade_type", .upOrDowngradeTypeR),
   ("downgrde_type", .upOrDowngradeTypeR),
   ("upgrade_nullable", .upOrDowngradeNullableR),
   ("downgrade_nullable", .upOrDowngradeNullableR)]

/-- Python dict key lookup `d[k]` on a literal dict (unique keys). -/
def dictGet (d : List (String × Renderer)) (k : String) : Option Renderer :=
  (d.find? (fun p => p.1 == k)).map (·.2)

/-- Python attribute access `diff.startswith`: each diff record is a tuple
(built as `("upgrade_table", table)` and so on), and `tuple` has no
`startswith` attribute — that is a `str` method — so the access raises
`AttributeError` for every diff record. -/
def Diff.getattrStartswith (_ : Diff) : Except PyError (String → Bool) :=
  .error (.attributeError "'tuple' object has no attribute 'startswith'")

/-- `_produce_upgrade_commands(diffs)`: the loop evaluates
`diff.startswith('upgrade_')` on each record; when the loop finishes the
function falls off the end, returning `None` (no text is ever accumulated —
`cmd(*diff[1:])`'s result is discarded by the source as well). -/
def _produce_upgrade_commands : List Diff → Except PyError (Option String)
  | [] => .ok none
  | diff :: rest =>
    match diff.getattrStartswith with
    | .error e => .error e
    | .ok startswith =>
      if startswith "upgrade_" then
        match dictGet _commands diff.tag with
        | none => .error (.keyError diff.tag)
        | some cmd =>
          match cmd.run diff with
          | .error e => .error e
          | .ok _ => _produce_upgrade_commands rest
      else
        _produce_upgrade_commands rest

/-- `_produce_downgrade_commands(diffs)`: same shape, filtering on
`'downgrade_'`. -/
def _produce_downgrade_commands : List Diff → Except PyError (Option String)
  | [] => .ok none
  | diff :: rest =>
    match diff.getattrStartswith with
    | .error e => .error e
    | .ok startswith =>
      if startswith "downgrade_" then
        match dictGet _commands diff.tag with
        | none => .error (.keyError diff.tag)
        | some cmd =>
          match cmd.run diff with
          | .error e => .error e
          | .ok _ => _produce_downgrade_commands rest
      else
        _produce_downgrade_commands rest

/-! ## Top level (source lines 12-29) -/

/-- The ambient `_context_opts` plus the connection the context holds for
`get_bind`. -/
structure ContextOpts where
  autogenerate_metadata : Option MetaData
  upgrade_token : String
  downgrade_token : String
  connection : Option Snapshot
deriving DecidableEq, Repr

/-- Modelled from the spec: `get_bind` is defined in `alembic/context.py`,
which is not under `src/`.  Per the spec's error taxonomy (§7), a missing
SchemaSnapshot/connection at invocation time is a fatal configuration error
surfaced immediately (the code base signals such errors as
`util.CommandError`); with a connection configured, it is returned for
introspection. -/
def get_bind (opts : ContextOpts) : Except PyError Snapshot :=
  match opts.connection with
  | none => .error (.commandError "connection is not available")
  | some c => .ok c

/-- `template_args[token] = text` on the template-args dict. -/
def dictSet (d : List (String × Option String)) (k : String)
    (v : Option String) : List (String × Option String) :=
  if d.any (fun p => p.1 == k) then
    d.map (fun p => if p.1 == k then (k, v) else p)
  else
    d ++ [(k, v)]

/-- `produce_migration_diffs(template_args)`: checks the configured metadata,
acquires the connection, runs the diff once, and stores the two command
texts under the configured upgrade/downgrade tokens (via `_set_upgrade` and
`_set_downgrade`). -/
def produce_migration_diffs (opts : ContextOpts)
    (template_args : List (String × Option String)) :
    Except PyError (List (String × Option String)) :=
  match opts.autogenerate_metadata with
  | none => .error (.commandError
      ("Can't proceed with --autogenerate option; environment script " ++
       "env.py does not provide a MetaData object to the context."))
  | some metadata =>
    match get_bind opts with
    | .error e => .error e
    | .ok connection =>
      let diffs := _produce_net_changes connection metadata
      match _produce_upgrade_commands diffs with
      | .error e => .error e
      | .ok upgradeText =>
        match _produce_downgrade_commands diffs with
        | .error e => .error e
        | .ok downgradeText =>
          .ok (dictSet (dictSet template_args opts.upgrade_token upgradeText)
                opts.downgrade_token downgradeText)

/-! ## Classifiers used to state the claims -/

/-- Python `s.startswith(pre)` on actual strings (the direction-tag test the
claims talk about). -/
def strStartswith (s pre : String) : Bool := pre.data.isPrefixOf s.data

/-- A diff whose tag puts it in the forward (upgrade) partition. -/
def Diff.isForward (d : Diff) : Bool := strStartswith d.tag "upgrade_"

/-- A diff whose tag puts it in the reverse (downgrade) partition. -/
def Diff.isReverse (d : Diff) : Bool := strStartswith d.tag "downgrade_"

def Diff.isUpgradeTable : Diff → Bool
  | .upgradeTable _ => true
  | _ => false

def Diff.isDowngradeTable : Diff → Bool
  | .downgradeTable _ => true
  | _ => false

def Diff.isUpgradeType : Diff → Bool
  | .upgradeType _ _ _ => true
  | _ => false

def Diff.isDowngradeType : Diff → Bool
  | .downgradeType _ _ _ => true
  | _ => false

def Diff.isUpgradeNullable : Diff → Bool
  | .upgradeNullable _ _ _ => true
  | _ => false

def Diff.isDowngradeNullable : Diff → Bool
  | .downgradeNullable _ _ _ => true
  | _ => false

/-- The table a column-level diff concerns (`none` for table-level diffs). -/
def Diff.colTable? : Diff → Option String
  | .upgradeTable _ => none
  | .downgradeTable _ => none
  | .upgradeColumn t _ => some t
  | .downgradeColumn t _ => some t
  | .upgradeType t _ _ => some t
  | .downgradeType t _ _ => some t
  | .upgradeNullable t _ _ => some t
  | .downgradeNullable t _ _ => some t

/-- The column name a column-level diff concerns. -/
def Diff.colName? : Diff → Option String
  | .upgradeTable _ => none
  | .downgradeTable _ => none
  | .upgradeColumn _ col => some col.name
  | .downgradeColumn _ c => some c
  | .upgradeType _ c _ => some c
  | .downgradeType _ c _ => some c
  | .upgradeNullable _ c _ => some c
  | .downgradeNullable _ c _ => some c

/-- A column-level diff of table `t`. -/
def isColLevelOf (t : String) (d : Diff) : Bool := d.colTable? == some t

/-- A type- or nullable-alter diff of column `c` of table `t`. -/
def isAlterOf (t c : String) : Diff → Bool
  | .upgradeType t' c' _ => t' == t && c' == c
  | .downgradeType t' c' _ => t' == t && c' == c
  | .upgradeNullable t' c' _ => t' == t && c' == c
  | .downgradeNullable t' c' _ => t' == t && c' == c
  | _ => false

/-- A type-alter diff of column `c` of table `t`. -/
def isTypeAlterOf (t c : String) : Diff → Bool
  | .upgradeType t' c' _ => t' == t && c' == c
  | .downgradeType t' c' _ => t' == t && c' == c
  | _ => false

/-- A nullable-alter diff of column `c` of table `t`. -/
def isNullableAlterOf (t c : String) : Diff → Bool
  | .upgradeNullable t' c' _ => t' == t && c' == c
  | .downgradeNullable t' c' _ => t' == t && c' == c
  | _ => false

/-- An add-table diff whose table is named `tn`. -/
def isUpgradeTableNamed (tn : String) : Diff → Bool
  | .upgradeTable T => T.name == tn
  | _ => false

/-- A drop-table diff for the name `tn`. -/
def isDowngradeTableNamed (tn : String) : Diff → Bool
  | .downgradeTable n => n == tn
  | _ => false

/-- A column-level diff that references column `c` of table `t`. -/
def mentionsCol (t c : String) : Diff → Bool
  | .upgradeColumn t' col => t' == t && col.name == c
  | .downgradeColumn t' c' => t' == t && c' == c
  | .upgradeType t' c' _ => t' == t && c' == c
  | .downgradeType t' c' _ => t' == t && c' == c
  | .upgradeNullable t' c' _ => t' == t && c' == c
  | .downgradeNullable t' c' _ => t' == t && c' == c
  | _ => false

/-- Emission-phase rank: table adds, then table drops, then column-level. -/
def phaseRank : Diff → Nat
  | .upgradeTable _ => 0
  | .downgradeTable _ => 1
  | _ => 2

/-- Within one table's column-level diffs: adds, then drops, then alters
(type and nullable alters interleave per column, so both rank 2). -/
def colRank : Diff → Nat
  | .upgradeColumn _ _ => 0
  | .downgradeColumn _ _ => 1
  | .upgradeType _ _ _ => 2
  | .downgradeType _ _ _ => 2
  | .upgradeNullable _ _ _ => 2
  | .downgradeNullable _ _ _ => 2
  | _ => 0

/-- The rank the claim asserts within one table's column-level diffs: adds,
drops, all type-alters, all nullable-alters. -/
def claimColRank : Diff → Nat
  | .upgradeColumn _ _ => 0
  | .downgradeColumn _ _ => 1
  | .upgradeType _ _ _ => 2
  | .downgradeType _ _ _ => 2
  | .upgradeNullable _ _ _ => 3
  | .downgradeNullable _ _ _ => 3
  | _ => 0

/-- Within one column's alter diffs: type pair (forward, reverse) then
nullable pair (forward, reverse). -/
def alterRank : Diff → Nat
  | .upgradeType _ _ _ => 0
  | .downgradeType _ _ _ => 1
  | .upgradeNullable _ _ _ => 2
  | .downgradeNullable _ _ _ => 3
  | _ => 0

/-! ## Helper lemmas: the string order -/

theorem charListLe_total (as bs : List Char) :
    charListLe as bs = true ∨ charListLe bs as = true := by
  induction as generalizing bs with
  | nil => left; rfl
  | cons a as ih =>
    cases bs with
    | nil => right; rfl
    | cons b bs =>
      simp only [charListLe]
      rcases Nat.lt_trichotomy a.toNat b.toNat with h | h | h
      · left; rw [if_pos h]
      · have h1 : ¬ a.toNat < b.toNat := by omega
        have h2 : ¬ b.toNat < a.toNat := by omega
        rw [if_neg h1, if_neg h2, if_neg h2, if_neg h1]
        exact ih bs
      · right; rw [if_pos h]

theorem charListLe_trans {as bs cs : List Char}
    (h1 : charListLe as bs = true) (h2 : charListLe bs cs = true) :
    charListLe as cs = true := by
  induction as generalizing bs cs with
  | nil => rfl
  | cons a as ih =>
    cases bs with
    | nil => simp [charListLe] at h1
    | cons b bs =>
      cases cs with
      | nil => simp [charListLe] at h2
      | cons c cs =>
        simp only [charListLe] at h1 h2 ⊢
        by_cases hab : a.toNat < b.toNat
        · by_cases hbc : b.toNat < c.toNat
          · rw [if_pos (Nat.lt_trans hab hbc)]
          · by_cases hcb : c.toNat < b.toNat
            · rw [if_neg hbc, if_pos hcb] at h2
              cases h2
            · rw [if_pos (by omega : a.toNat < c.toNat)]
        · by_cases hba : b.toNat < a.toNat
          · rw [if_neg hab, if_pos hba] at h1
            cases h1
          · rw [if_neg hab, if_neg hba] at h1
            by_cases hbc : b.toNat < c.toNat
            · rw [if_pos (by omega : a.toNat < c.toNat)]
            · by_cases hcb : c.toNat < b.toNat
              · rw [if_neg hbc, if_pos hcb] at h2
                cases h2
              · rw [if_neg hbc, if_neg hcb] at h2
                rw [if_neg (by omega : ¬ a.toNat < c.toNat),
                  if_neg (by omega : ¬ c.toNat < a.toNat)]
                exact ih h1 h2

theorem charListLe_antisymm {as bs : List Char}
    (h1 : charListLe as bs = true) (h2 : charListLe bs as = true) :
    as = bs := by
  induction as generalizing bs with
  | nil =>
    cases bs with
    | nil => rfl
    | cons b bs => simp [charListLe] at h2
  | cons a as ih =>
    cases bs with
    | nil => simp [charListLe] at h1
    | cons b bs =>
      simp only [charListLe] at h1 h2
      by_cases hab : a.toNat < b.toNat
      · rw [if_neg (Nat.lt_asymm hab), if_pos hab] at h2
        cases h2
      · by_cases hba : b.toNat < a.toNat
        · rw [if_neg hab, if_pos hba] at h1
          cases h1
        · rw [if_neg hab, if_neg hba] at h1
          rw [if_neg hba, if_neg hab] at h2
          have hvn : a.toNat = b.toNat := by omega
          have hv : a = b := Char.ext (UInt32.ext hvn)
          rw [hv, ih h1 h2]

theorem strLe_total (a b : String) : strLe a b = true ∨ strLe b a = true :=
  charListLe_total a.data b.data

theorem strLe_trans {a b c : String} (h1 : strLe a b = true)
    (h2 : strLe b c = true) : strLe a c = true :=
  charListLe_trans h1 h2

theorem strLe_antisymm {a b : String} (h1 : strLe a b = true)
    (h2 : strLe b a = true) : a = b := by
  cases a
  cases b
  exact congrArg String.mk (charListLe_antisymm h1 h2)

/-! ## Helper lemmas: sorting -/

theorem perm_insertStr (a : String) (l : List String) :
    (insertStr a l).Perm (a :: l) := by
  induction l with
  | nil => exact List.Perm.refl _
  | cons b r ih =>
    unfold insertStr
    by_cases h : strLe a b = true
    · simp [h]
    · simp only [if_neg h]
      exact (ih.cons b).trans (List.Perm.swap a b r)

theorem perm_sortStrings (l : List String) : (sortStrings l).Perm l := by
  induction l with
  | nil => exact List.Perm.refl _
  | cons a r ih => exact (perm_insertStr a (sortStrings r)).trans (ih.cons a)

theorem mem_insertStr {x a : String} {l : List String} :
    x ∈ insertStr a l ↔ x = a ∨ x ∈ l := by
  rw [(perm_insertStr a l).mem_iff, List.mem_cons]

theorem sorted_insertStr (a : String) {l : List String}
    (h : l.Sorted (fun x y => strLe x y = true)) :
    (insertStr a l).Sorted (fun x y => strLe x y = true) := by
  induction l with
  | nil => simp [insertStr]
  | cons b r ih =>
    rw [List.sorted_cons] at h
    unfold insertStr
    by_cases hab : strLe a b = true
    · rw [if_pos hab, List.sorted_cons]
      refine ⟨?_, List.sorted_cons.mpr h⟩
      intro x hx
      rcases List.mem_cons.mp hx with rfl | hx
      · exact hab
      · exact strLe_trans hab (h.1 x hx)
    · rw [if_neg hab, List.sorted_cons]
      refine ⟨?_, ih h.2⟩
      intro x hx
      rcases mem_insertStr.mp hx with rfl | hx
      · exact (strLe_total _ _).resolve_left hab
      · exact h.1 x hx

theorem sorted_sortStrings (l : List String) :
    (sortStrings l).Sorted (fun x y => strLe x y = true) := by
  induction l with
  | nil => simp [sortStrings]
  | cons a r ih => exact sorted_insertStr a ih

theorem sortStrings_eq_of_perm {l₁ l₂ : List String} (h : l₁.Perm l₂) :
    sortStrings l₁ = sortStrings l₂ := by
  haveI : IsAntisymm String (fun x y => strLe x y = true) :=
    ⟨fun _ _ h1 h2 => strLe_antisymm h1 h2⟩
  exact List.eq_of_perm_of_sorted
    ((perm_sortStrings l₁).trans (h.trans (perm_sortStrings l₂).symm))
    (sorted_sortStrings l₁) (sorted_sortStrings l₂)

/-! ## Helper lemmas: set modelling -/

theorem mem_pySet {x : String} {l : List String} : x ∈ pySet l ↔ x ∈ l := by
  rw [pySet, (perm_sortStrings l.dedup).mem_iff, List.mem_dedup]

theorem nodup_pySet (l : List String) : (pySet l).Nodup :=
  (perm_sortStrings l.dedup).symm.nodup (List.nodup_dedup l)

theorem mem_setDiff {x : String} {a b : List String} :
    x ∈ setDiff a b ↔ x ∈ a ∧ x ∉ b := by
  simp [setDiff, List.mem_filter, mem_pySet]

theorem nodup_setDiff (a b : List String) : (setDiff a b).Nodup :=
  (nodup_pySet a).filter _

theorem mem_setIntersect {x : String} {a b : List String} :
    x ∈ setIntersect a b ↔ x ∈ a ∧ x ∈ b := by
  simp [setIntersect, List.mem_filter, mem_pySet]

theorem nodup_setIntersect (a b : List String) : (setIntersect a b).Nodup :=
  (nodup_pySet a).filter _

/-! ## Helper lemmas: joinMap -/

theorem mem_joinMap {f : α → List β} {l : List α} {b : β} :
    b ∈ joinMap f l ↔ ∃ a ∈ l, b ∈ f a := by
  induction l with
  | nil => simp [joinMap]
  | cons x r ih => simp [joinMap, ih, List.mem_append]

theorem filter_joinMap (p : β → Bool) (f : α → List β) (l : List α) :
    (joinMap f l).filter p = joinMap (fun a => (f a).filter p) l := by
  induction l with
  | nil => rfl
  | cons x r ih => simp [joinMap, List.filter_append, ih]

theorem joinMap_eq_nil {f : α → List β} {l : List α}
    (h : ∀ a ∈ l, f a = []) : joinMap f l = [] := by
  induction l with
  | nil => rfl
  | cons x r ih =>
    simp only [joinMap, h x (List.mem_cons_self x r), List.nil_append]
    exact ih fun a ha => h a (List.mem_cons_of_mem x ha)

theorem joinMap_eq_of_single {f : α → List β} {l : List α} {a : α}
    (hn : l.Nodup) (ha : a ∈ l) (hz : ∀ b ∈ l, b ≠ a → f b = []) :
    joinMap f l = f a := by
  induction l with
  | nil => cases ha
  | cons x r ih =>
    rcases List.mem_cons.mp ha with rfl | ha'
    · have : joinMap f r = [] := by
        refine joinMap_eq_nil fun b hb => hz b (List.mem_cons_of_mem a hb) ?_
        rintro rfl
        exact (List.nodup_cons.mp hn).1 hb
      simp [joinMap, this]
    · have hx : f x = [] := by
        refine hz x (List.mem_cons_self x r) ?_
        rintro rfl
        exact (List.nodup_cons.mp hn).1 ha'
      simp only [joinMap, hx, List.nil_append]
      exact ih (List.nodup_cons.mp hn).2 ha'
        fun b hb => hz b (List.mem_cons_of_mem x hb)

theorem joinMap_length_congr {f g : α → List β} {l : List α}
    (h : ∀ a ∈ l, (f a).length = (g a).length) :
    (joinMap f l).length = (joinMap g l).length := by
  induction l with
  | nil => rfl
  | cons x r ih =>
    simp only [joinMap, List.length_append]
    rw [h x (List.mem_cons_self x r),
      ih fun a ha => h a (List.mem_cons_of_mem x ha)]

theorem filterMap_eq_joinMap (f : α → Option β) (l : List α) :
    l.filterMap f = joinMap (fun a => (f a).toList) l := by
  induction l with
  | nil => rfl
  | cons x r ih => cases h : f x <;> simp [List.filterMap_cons, h, joinMap, ih]

theorem filter_beq_of_nodup_mem {l : List String} {c : String}
    (hn : l.Nodup) (hm : c ∈ l) : l.filter (fun x => x == c) = [c] := by
  induction l with
  | nil => cases hm
  | cons x r ih =>
    rcases List.mem_cons.mp hm with rfl | hm'
    · have : r.filter (fun x => x == c) = [] := by
        rw [List.filter_eq_nil_iff]
        intro a ha h
        exact (List.nodup_cons.mp hn).1 (beq_iff_eq.mp h ▸ ha)
      simp [List.filter_cons, this]
    · have hx : (x == c) = false := by
        rw [beq_eq_false_iff_ne]
        rintro rfl
        exact (List.nodup_cons.mp hn).1 hm'
      simp only [List.filter_cons, hx, cond_false]
      exact ih (List.nodup_cons.mp hn).2 hm'

/-! ## Helper lemmas: name-keyed lookups -/

theorem metaTablesGet_name {m : MetaData} {tn : String} {T : Table}
    (h : metaTablesGet m tn = some T) : T.name = tn := by
  unfold metaTablesGet at h
  have hp := List.find?_some h
  exact beq_iff_eq.mp hp

theorem metaTablesGet_isSome_of_mem {m : MetaData} {tn : String}
    (h : tn ∈ m.tables.map (·.name)) : ∃ T, metaTablesGet m tn = some T := by
  rcases List.mem_map.mp h with ⟨T, hT, rfl⟩
  have hs : (m.tables.find? (fun t => t.name == T.name)).isSome := by
    rw [List.find?_isSome]
    exact ⟨T, hT, beq_self_eq_true _⟩
  exact Option.isSome_iff_exists.mp hs

theorem metaTablesGet_eq_none_of_not_mem {m : MetaData} {tn : String}
    (h : tn ∉ m.tables.map (·.name)) : metaTablesGet m tn = none := by
  rw [metaTablesGet, List.find?_eq_none]
  intro T hT hbeq
  exact h (List.mem_map.mpr ⟨T, hT, beq_iff_eq.mp hbeq⟩)

theorem connColsGet_isSome_of_mem {s : Snapshot} {tn : String}
    (h : tn ∈ s.tables.map (·.1)) : ∃ cols, connColsGet s tn = some cols := by
  rcases List.mem_map.mp h with ⟨pr, hpr, rfl⟩
  have hs : (s.tables.find? (fun q => q.1 == pr.1)).isSome := by
    rw [List.find?_isSome]
    exact ⟨pr, hpr, beq_self_eq_true _⟩
  rcases Option.isSome_iff_exists.mp hs with ⟨q, hq⟩
  exact ⟨q.2, by rw [connColsGet, hq]; rfl⟩

theorem connColsGet_eq_none_of_not_mem {s : Snapshot} {tn : String}
    (h : tn ∉ s.tables.map (·.1)) : connColsGet s tn = none := by
  rw [connColsGet, List.find?_eq_none.mpr, Option.map_none']
  intro q hq hbeq
  exact h (List.mem_map.mpr ⟨q, hq, beq_iff_eq.mp hbeq⟩)

theorem mem_of_connColsGet_some {s : Snapshot} {tn : String}
    {cols : List ConnColumn} (h : connColsGet s tn = some cols) :
    tn ∈ s.tables.map (·.1) := by
  by_contra hmem
  rw [connColsGet_eq_none_of_not_mem hmem] at h
  cases h

theorem mem_of_metaTablesGet_some {m : MetaData} {tn : String} {T : Table}
    (h : metaTablesGet m tn = some T) : tn ∈ m.tables.map (·.name) := by
  by_contra hmem
  rw [metaTablesGet_eq_none_of_not_mem hmem] at h
  cases h

theorem metaColGet_name {t : Table} {cn : String} {col : Column}
    (h : metaColGet t cn = some col) : col.name = cn := by
  unfold metaColGet at h
  have hp := List.find?_some h
  exact beq_iff_eq.mp hp

theorem metaColGet_isSome_of_mem {t : Table} {cn : String}
    (h : cn ∈ t.c.map (·.name)) : ∃ col, metaColGet t cn = some col := by
  rcases List.mem_map.mp h with ⟨col, hcol, rfl⟩
  have hs : (t.c.reverse.find? (fun x => x.name == col.name)).isSome := by
    rw [List.find?_isSome]
    exact ⟨col, List.mem_reverse.mpr hcol, beq_self_eq_true _⟩
  exact Option.isSome_iff_exists.mp hs

theorem metaColGet_eq_none_of_not_mem {t : Table} {cn : String}
    (h : cn ∉ t.c.map (·.name)) : metaColGet t cn = none := by
  rw [metaColGet, List.find?_eq_none]
  intro col hcol hbeq
  exact h (List.mem_map.mpr
    ⟨col, List.mem_reverse.mp hcol, beq_iff_eq.mp hbeq⟩)

theorem mem_of_metaColGet_some {t : Table} {cn : String} {col : Column}
    (h : metaColGet t cn = some col) : cn ∈ t.c.map (·.name) := by
  by_contra hmem
  rw [metaColGet_eq_none_of_not_mem hmem] at h
  cases h

theorem connColGet_name {cols : List ConnColumn} {cn : String}
    {r : ConnColumn} (h : connColGet cols cn = some r) : r.name = cn := by
  unfold connColGet at h
  have hp := List.find?_some h
  exact beq_iff_eq.mp hp

theorem connColGet_isSome_of_mem {cols : List ConnColumn} {cn : String}
    (h : cn ∈ cols.map (·.name)) : ∃ r, connColGet cols cn = some r := by
  rcases List.mem_map.mp h with ⟨r, hr, rfl⟩
  have hs : (cols.reverse.find? (fun x => x.name == r.name)).isSome := by
    rw [List.find?_isSome]
    exact ⟨r, List.mem_reverse.mpr hr, beq_self_eq_true _⟩
  exact Option.isSome_iff_exists.mp hs

theorem connColGet_eq_none_of_not_mem {cols : List ConnColumn} {cn : String}
    (h : cn ∉ cols.map (·.name)) : connColGet cols cn = none := by
  rw [connColGet, List.find?_eq_none]
  intro r hr hbeq
  exact h (List.mem_map.mpr ⟨r, List.mem_reverse.mp hr, beq_iff_eq.mp hbeq⟩)

theorem mem_of_connColGet_some {cols : List ConnColumn} {cn : String}
    {r : ConnColumn} (h : connColGet cols cn = some r) :
    cn ∈ cols.map (·.name) := by
  by_contra hmem
  rw [connColGet_eq_none_of_not_mem hmem] at h
  cases h

/-! ## Helper lemmas: comparison output shapes -/

theorem ite_eq_else_or_then {α : Type} {c : Prop} [Decidable c] (A B : α) :
    (if c then A else B) = B ∨ (if c then A else B) = A := by
  split
  · right; rfl
  · left; rfl

theorem compare_type_cases (t c : String) (a b : TypeDesc) :
    _compare_type t c a b = [] ∨
      _compare_type t c a b =
        [Diff.upgradeType t c b, Diff.downgradeType t c a] := by
  unfold _compare_type
  exact ite_eq_else_or_then _ _

theorem compare_nullable_cases (t c : String) (a b : Option Bool) :
    _compare_nullable t c a b = [] ∨
      _compare_nullable t c a b =
        [Diff.upgradeNullable t c b, Diff.downgradeNullable t c a] := by
  unfold _compare_nullable
  split
  · right; rfl
  · left; rfl

theorem mem_compare_type {t c : String} {a b : TypeDesc} {d : Diff}
    (h : d ∈ _compare_type t c a b) :
    d = Diff.upgradeType t c b ∨ d = Diff.downgradeType t c a := by
  rcases compare_type_cases t c a b with hE | hE <;> rw [hE] at h
  · cases h
  · simpa using h

theorem mem_compare_nullable {t c : String} {a b : Option Bool} {d : Diff}
    (h : d ∈ _compare_nullable t c a b) :
    d = Diff.upgradeNullable t c b ∨ d = Diff.downgradeNullable t c a := by
  rcases compare_nullable_cases t c a b with hE | hE <;> rw [hE] at h
  · cases h
  · simpa using h

theorem mem_alterSection {t : String} {cc : List ConnColumn} {mt : Table}
    {cname : String} {d : Diff} (h : d ∈ alterSection t cc mt cname) :
    (∃ mcol ccol, metaColGet mt cname = some mcol ∧
      connColGet cc cname = some ccol ∧
      (d = Diff.upgradeType t cname mcol.type ∨
       d = Diff.downgradeType t cname ccol.type ∨
       d = Diff.upgradeNullable t cname mcol.nullable ∨
       d = Diff.downgradeNullable t cname ccol.nullable)) := by
  unfold alterSection at h
  split at h
  · rename_i mcol ccol hm hc
    refine ⟨mcol, ccol, hm, hc, ?_⟩
    rcases List.mem_append.mp h with h | h
    · rcases mem_compare_type h with rfl | rfl
      · exact Or.inl rfl
      · exact Or.inr (Or.inl rfl)
    · rcases mem_compare_nullable h with rfl | rfl
      · exact Or.inr (Or.inr (Or.inl rfl))
      · exact Or.inr (Or.inr (Or.inr rfl))
  · cases h

theorem colName_of_mem_alterSection {t : String} {cc : List ConnColumn}
    {mt : Table} {cname : String} {d : Diff}
    (h : d ∈ alterSection t cc mt cname) : d.colName? = some cname := by
  rcases mem_alterSection h with ⟨mcol, ccol, _, _, hd⟩
  rcases hd with rfl | rfl | rfl | rfl <;> rfl

theorem colTable_of_mem_alterSection {t : String} {cc : List ConnColumn}
    {mt : Table} {cname : String} {d : Diff}
    (h : d ∈ alterSection t cc mt cname) : d.colTable? = some t := by
  rcases mem_alterSection h with ⟨mcol, ccol, _, _, hd⟩
  rcases hd with rfl | rfl | rfl | rfl <;> rfl

theorem colTable_of_mem_compare_columns {t : String} {cc : List ConnColumn}
    {mt : Table} {d : Diff} (h : d ∈ _compare_columns t cc mt) :
    d.colTable? = some t := by
  unfold _compare_columns at h
  rcases List.mem_append.mp h with h | h
  · rcases List.mem_append.mp h with h | h
    · rcases List.mem_filterMap.mp h with ⟨cname, _, hmap⟩
      rcases Option.map_eq_some'.mp hmap with ⟨col, _, rfl⟩
      rfl
    · rcases List.mem_map.mp h with ⟨cname, _, rfl⟩
      rfl
  · rcases mem_joinMap.mp h with ⟨cname, _, hmem⟩
    exact colTable_of_mem_alterSection hmem

/-! ## Workhorse extraction lemmas -/

theorem filter_upgradeTables_nil {p : Diff → Bool}
    (hup : ∀ T, p (.upgradeTable T) = false) (m : MetaData)
    (names : List String) :
    (names.filterMap
      (fun tname => (metaTablesGet m tname).map Diff.upgradeTable)).filter p
      = [] := by
  rw [List.filter_eq_nil_iff]
  intro d hd
  rcases List.mem_filterMap.mp hd with ⟨tn, _, hmap⟩
  rcases Option.map_eq_some'.mp hmap with ⟨T, _, rfl⟩
  simp [hup]

theorem filter_downgradeTables_nil {p : Diff → Bool}
    (hdown : ∀ n, p (.downgradeTable n) = false) (names : List String) :
    (names.map Diff.downgradeTable).filter p = [] := by
  rw [List.filter_eq_nil_iff]
  intro d hd
  rcases List.mem_map.mp hd with ⟨n, _, rfl⟩
  simp [hdown]

/-- Filtering the whole diff sequence with a predicate that only accepts
column-level diffs of table `t` reduces to filtering `t`'s own
`_compare_columns` section (empty when `t` is not a common table). -/
theorem filter_net_changes_of_table (s : Snapshot) (m : MetaData)
    (p : Diff → Bool) (t : String)
    (hup : ∀ T, p (.upgradeTable T) = false)
    (hdown : ∀ n, p (.downgradeTable n) = false)
    (honly : ∀ d, p d = true → d.colTable? = some t) :
    (_produce_net_changes s m).filter p =
      (match connColsGet s t, metaTablesGet m t with
       | some cc, some mt => (_compare_columns t cc mt).filter p
       | _, _ => []) := by
  have hzero : ∀ t', t' ≠ t → (tableSection s m t').filter p = [] := by
    intro t' hne
    unfold tableSection
    split
    · rw [List.filter_eq_nil_iff]
      intro d hd hp
      have h1 := colTable_of_mem_compare_columns hd
      have h2 := honly d hp
      rw [h1] at h2
      exact hne (Option.some.inj h2)
    · rfl
  simp only [_produce_net_changes]
  rw [List.filter_append, List.filter_append, filter_joinMap,
    filter_upgradeTables_nil hup, filter_downgradeTables_nil hdown,
    List.nil_append, List.nil_append]
  by_cases hmem : t ∈ setIntersect (s.tables.map (·.1)) (m.tables.map (·.name))
  · rcases mem_setIntersect.mp hmem with ⟨hc, hm⟩
    rcases connColsGet_isSome_of_mem hc with ⟨cc, hcc⟩
    rcases metaTablesGet_isSome_of_mem hm with ⟨mt, hmt⟩
    rw [joinMap_eq_of_single (nodup_setIntersect _ _) hmem
      (fun t' _ hne => hzero t' hne)]
    simp only [tableSection, hcc, hmt]
  · rw [joinMap_eq_nil (fun t' ht' =>
      hzero t' (fun h => hmem (h ▸ ht')))]
    cases hcc : connColsGet s t with
    | none => cases hmt : metaTablesGet m t <;> rfl
    | some cc =>
      cases hmt : metaTablesGet m t with
      | none => rfl
      | some mt =>
        exact absurd (mem_setIntersect.mpr
          ⟨mem_of_connColsGet_some hcc, mem_of_metaTablesGet_some hmt⟩) hmem

theorem filter_upgradeColumns_nil {p : Diff → Bool} {t : String}
    (hupcol : ∀ col, p (.upgradeColumn t col) = false) (mt : Table)
    (names : List String) :
    (names.filterMap
      (fun cname => (metaColGet mt cname).map (Diff.upgradeColumn t))).filter p
      = [] := by
  rw [List.filter_eq_nil_iff]
  intro d hd
  rcases List.mem_filterMap.mp hd with ⟨cn, _, hmap⟩
  rcases Option.map_eq_some'.mp hmap with ⟨col, _, rfl⟩
  simp [hupcol]

theorem filter_downgradeColumns_nil {p : Diff → Bool} {t : String}
    (hdowncol : ∀ c', p (.downgradeColumn t c') = false)
    (names : List String) :
    (names.map (Diff.downgradeColumn t)).filter p = [] := by
  rw [List.filter_eq_nil_iff]
  intro d hd
  rcases List.mem_map.mp hd with ⟨n, _, rfl⟩
  simp [hdowncol]

/-- Filtering one table's `_compare_columns` section with a predicate that
only accepts alter diffs of column `c` reduces to filtering `c`'s own alter
section (empty when `c` is not a common column). -/
theorem filter_compare_columns_of_col (t : String) (cc : List ConnColumn)
    (mt : Table) (p : Diff → Bool) (c : String)
    (hupcol : ∀ col, p (.upgradeColumn t col) = false)
    (hdowncol : ∀ c', p (.downgradeColumn t c') = false)
    (honly : ∀ d, p d = true → d.colName? = some c) :
    (_compare_columns t cc mt).filter p = (alterSection t cc mt c).filter p
    := by
  have hzero : ∀ c', c' ≠ c → (alterSection t cc mt c').filter p = [] := by
    intro c' hne
    rw [List.filter_eq_nil_iff]
    intro d hd hp
    have h1 := colName_of_mem_alterSection hd
    have h2 := honly d hp
    rw [h1] at h2
    exact hne (Option.some.inj h2)
  simp only [_compare_columns]
  rw [List.filter_append, List.filter_append, filter_joinMap,
    filter_upgradeColumns_nil hupcol, filter_downgradeColumns_nil hdowncol,
    List.nil_append, List.nil_append]
  by_cases hmem : c ∈ setIntersect (mt.c.map (·.name)) (cc.map (·.name))
  · rw [joinMap_eq_of_single (nodup_setIntersect _ _) hmem
      (fun c' _ hne => hzero c' hne)]
  · rw [joinMap_eq_nil (fun c' hc' => hzero c' (fun h => hmem (h ▸ hc')))]
    cases hm : metaColGet mt c with
    | none => rw [alterSection, hm]; cases hc : connColGet cc c <;> rfl
    | some mcol =>
      cases hc : connColGet cc c with
      | none => rw [alterSection, hm, hc]; rfl
      | some ccol =>
        exact absurd (mem_setIntersect.mpr
          ⟨mem_of_metaColGet_some hm, mem_of_connColGet_some hc⟩) hmem

/-! ## Claim C8: type comparison -/

/-- The type-difference decision as the spec words it (§4.2): different
whenever affinities differ; with matching affinities, string-like compares
an explicitly declared model length against the live length, numeric-like
compares explicitly declared precision/scale, and any other affinity is
treated as unchanged. -/
def typesDifferSpec (live model : TypeDesc) : Bool :=
  if live.affinity ≠ model.affinity then
    true
  else
    match live.affinity with
    | .str => model.length.isSome && model.length != live.length
    | .num =>
        (model.precision.isSome && model.precision != live.precision)
        || (model.scale.isSome && model.scale != live.scale)
    | .other _ => false

/-- C8: the comparison reports "different" whenever affinities differ; on
matching affinities it dispatches to the registered comparator (string-like
on declared length, numeric-like on declared precision/scale) and treats
affinities without a comparator as unchanged; the alter-type pair
(forward = model type, reverse = live type) is emitted exactly when the
comparison reports different. -/
theorem c8_type_affinity_comparison_dispatch (t c : String)
    (live model : TypeDesc) :
    _compare_type t c live model =
      if typesDifferSpec live model then
        [Diff.upgradeType t c model, Diff.downgradeType t c live]
      else
        [] := by
  unfold _compare_type typesDifferSpec
  by_cases h : live.affinity = model.affinity
  · cases haff : live.affinity <;>
      simp [h, haff, _type_comparators, _string_compare, _numeric_compare]
  · simp [h]

/-! ## Claim C4: the dispatch mapping misses the downgrade-type key -/

/-- A sample type carried by a downgrade-type diff. -/
def c4Type : TypeDesc := ⟨.str, some 50, none, none, "VARCHAR(50)"⟩

/-- C4 (the code bug evaluated): the diff engine emits downgrade-type diffs
tagged `downgrade_type`, but the `_commands` dict has no such key (it holds
the misspelt `downgrde_type` instead), so the reverse type renderer is
unreachable through the dispatch mapping. -/
theorem c4_downgrade_type_dispatch_missing :
    (Diff.downgradeType "t" "c" c4Type).tag = "downgrade_type" ∧
    dictGet _commands (Diff.downgradeType "t" "c" c4Type).tag = none ∧
    dictGet _commands "downgrde_type" = some Renderer.upOrDowngradeTypeR :=
  ⟨rfl, rfl, rfl⟩

/-! ## Claim C1: the orchestrator never assembles script bodies -/

/-- A model table that makes the diff non-empty. -/
def c1Table : Table :=
  ⟨"accounts", [⟨"id", ⟨.other "integer", none, none, none, "INTEGER"⟩,
    some false, none⟩], []⟩

/-- Context with one model-only table: the diff is non-empty. -/
def c1Opts : ContextOpts :=
  ⟨some ⟨[c1Table]⟩, "upgrades", "downgrades", some ⟨[]⟩⟩

/-- Context whose model and snapshot are both empty: the diff is empty. -/
def c1OptsEmpty : ContextOpts :=
  ⟨some ⟨[]⟩, "upgrades", "downgrades", some ⟨[]⟩⟩

/-- C1 (the code bug evaluated): with any change present the orchestrator
raises AttributeError (`startswith` is called on the diff tuple), and on the
no-change path it assigns `None` to both template slots — it never joins
rendered statement texts into script bodies. -/
theorem c1_orchestrator_never_assembles_scripts :
    produce_migration_diffs c1Opts [] =
      .error (.attributeError "'tuple' object has no attribute 'startswith'")
    ∧ produce_migration_diffs c1OptsEmpty [] =
      .ok [("upgrades", none), ("downgrades", none)] :=
  ⟨rfl, rfl⟩

/-! ## Claim C5: missing model/snapshot is a fatal configuration error -/

/-- C5: a missing metadata (model) or connection (snapshot) fails
immediately with the configuration error (`util.CommandError`); with both
present, no such error is ever raised. -/
theorem c5_missing_model_or_snapshot_is_fatal (m : MetaData)
    (conn : Snapshot) (tokU tokD : String)
    (args : List (String × Option String)) :
    produce_migration_diffs ⟨none, tokU, tokD, some conn⟩ args =
      .error (.commandError
        ("Can't proceed with --autogenerate option; environment script " ++
         "env.py does not provide a MetaData object to the context.")) ∧
    produce_migration_diffs ⟨none, tokU, tokD, none⟩ args =
      .error (.commandError
        ("Can't proceed with --autogenerate option; environment script " ++
         "env.py does not provide a MetaData object to the context.")) ∧
    produce_migration_diffs ⟨some m, tokU, tokD, none⟩ args =
      .error (.commandError "connection is not available") ∧
    ∀ e, produce_migration_diffs ⟨some m, tokU, tokD, some conn⟩ args ≠
      .error (.commandError e) := by
  refine ⟨rfl, rfl, rfl, ?_⟩
  intro e h
  cases hd : _produce_net_changes conn m with
  | nil =>
    simp only [produce_migration_diffs, get_bind, hd,
      _produce_upgrade_commands, _produce_downgrade_commands] at h
    cases h
  | cons a l =>
    simp only [produce_migration_diffs, get_bind, hd,
      _produce_upgrade_commands, Diff.getattrStartswith] at h
    cases h

/-! ## Claim C10: the render pipeline fails on any non-empty diff -/

/-- C10: a diff sequence with at least one change record makes both command
producers raise AttributeError before rendering anything (`startswith` is
invoked on the tuple itself); with no changes both return `None`, and the
orchestrator completes exactly when the diff found no changes. -/
theorem c10_render_pipeline_attribute_error (d : Diff) (ds : List Diff)
    (m : MetaData) (conn : Snapshot) (tokU tokD : String)
    (args : List (String × Option String)) :
    _produce_upgrade_commands (d :: ds) =
      .error (.attributeError "'tuple' object has no attribute 'startswith'")
    ∧ _produce_downgrade_commands (d :: ds) =
      .error (.attributeError "'tuple' object has no attribute 'startswith'")
    ∧ _produce_upgrade_commands [] = .ok none
    ∧ _produce_downgrade_commands [] = .ok none
    ∧ ((∃ r, produce_migration_diffs ⟨some m, tokU, tokD, some conn⟩ args =
          .ok r) ↔ _produce_net_changes conn m = []) := by
  refine ⟨rfl, rfl, rfl, rfl, ?_, ?_⟩
  · rintro ⟨r, hr⟩
    cases hd : _produce_net_changes conn m with
    | nil => rfl
    | cons a l =>
      simp only [produce_migration_diffs, get_bind, hd,
        _produce_upgrade_commands, Diff.getattrStartswith] at hr
      cases hr
  · intro hd
    refine ⟨dictSet (dictSet args tokU none) tokD none, ?_⟩
    simp only [produce_migration_diffs, get_bind, hd,
      _produce_upgrade_commands, _produce_downgrade_commands]

/-! ## Claim C7: nullability compared by identity -/

/-- C7: for a column present in both snapshot and model, the alter-nullable
pair (forward with the model value, reverse with the live value) is emitted
exactly when the two nullability values are not the identical value — in
particular an unspecified (`None`) nullability differs from an explicit
boolean. -/
theorem c7_nullability_identity_comparison (s : Snapshot) (m : MetaData)
    (t c : String) (ccols : List ConnColumn) (mtab : Table)
    (ccol : ConnColumn) (mcol : Column)
    (hs : connColsGet s t = some ccols)
    (hm : metaTablesGet m t = some mtab)
    (hcc : connColGet ccols c = some ccol)
    (hmc : metaColGet mtab c = some mcol) :
    (_produce_net_changes s m).filter (isNullableAlterOf t c) =
      if ccol.nullable ≠ mcol.nullable then
        [Diff.upgradeNullable t c mcol.nullable,
         Diff.downgradeNullable t c ccol.nullable]
      else
        [] := by
  rw [filter_net_changes_of_table s m (isNullableAlterOf t c) t
    (fun T => rfl) (fun n => rfl) ?honly]
  case honly =>
    intro d hp
    cases d <;> simp only [isNullableAlterOf] at hp <;> try cases hp
    all_goals
      rcases Bool.and_eq_true_iff.mp hp with ⟨h1, h2⟩
      rw [Diff.colTable?, beq_iff_eq.mp h1]
  simp only [hs, hm]
  rw [filter_compare_columns_of_col t ccols mtab (isNullableAlterOf t c) c
    (fun col => rfl) (fun c' => rfl) ?honly2]
  case honly2 =>
    intro d hp
    cases d <;> simp only [isNullableAlterOf] at hp <;> try cases hp
    all_goals
      rcases Bool.and_eq_true_iff.mp hp with ⟨h1, h2⟩
      rw [Diff.colName?, beq_iff_eq.mp h2]
  simp only [alterSection, hmc, hcc]
  rw [List.filter_append]
  have ht : (_compare_type t c ccol.type mcol.type).filter
      (isNullableAlterOf t c) = [] := by
    rw [List.filter_eq_nil_iff]
    intro d hd
    rcases mem_compare_type hd with rfl | rfl <;> simp [isNullableAlterOf]
  have hn : (_compare_nullable t c ccol.nullable mcol.nullable).filter
      (isNullableAlterOf t c) =
      _compare_nullable t c ccol.nullable mcol.nullable := by
    rw [List.filter_eq_self]
    intro d hd
    rcases mem_compare_nullable hd with rfl | rfl <;> simp [isNullableAlterOf]
  rw [ht, hn, List.nil_append]
  rfl

/-- The integer-ish type used by C7's witness schema. -/
def c7Int : TypeDesc := ⟨.other "integer", none, none, none, "INTEGER"⟩

/-- C7's witness snapshot: table `t`, column `c` with unknown nullability. -/
def c7Snap : Snapshot := ⟨[("t", [⟨"c", c7Int, none⟩])]⟩

/-- C7's witness model: table `t`, column `c` explicitly `nullable=False`. -/
def c7Meta : MetaData := ⟨[⟨"t", [⟨"c", c7Int, some false, none⟩], []⟩]⟩

/-- C7 witness: unknown (`None`) live nullability against an explicit
`nullable=False` model value is flagged, emitting the alter-nullable pair. -/
theorem c7_nullability_identity_comparison_witness :
    (_produce_net_changes c7Snap c7Meta).filter (isNullableAlterOf "t" "c") =
      [Diff.upgradeNullable "t" "c" (some false),
       Diff.downgradeNullable "t" "c" none] := by
  have h := c7_nullability_identity_comparison c7Snap c7Meta "t" "c"
    [⟨"c", c7Int, none⟩] ⟨"t", [⟨"c", c7Int, some false, none⟩], []⟩
    ⟨"c", c7Int, none⟩ ⟨"c", c7Int, some false, none⟩ rfl rfl rfl rfl
  simpa using h

/-! ## Claim C9: deterministic constraint rendering order -/

/-- C9: within one create-table statement the classifiable constraints are
rendered and ordered lexicographically over their rendered text, so the
statement is invariant under any reordering of the constraint set, and an
unclassifiable constraint contributes no text. -/
theorem c9_constraint_order_determinism (n : String) (cols : List Column)
    (cs1 cs2 : List Constraint) (tag : String) (hperm : cs1.Perm cs2) :
    _upgrade_table ⟨n, cols, cs1⟩ = _upgrade_table ⟨n, cols, cs2⟩ ∧
    _upgrade_table ⟨n, cols, Constraint.unsupported tag :: cs1⟩ =
      _upgrade_table ⟨n, cols, cs1⟩ := by
  constructor
  · have hsort : sortStrings ((cs1.map _render_constraint).filterMap id) =
        sortStrings ((cs2.map _render_constraint).filterMap id) :=
      sortStrings_eq_of_perm (List.Perm.filterMap id
        (hperm.map _render_constraint))
    simp only [_upgrade_table]
    rw [hsort]
  · simp [_upgrade_table, List.filterMap_cons, _render_constraint]

/-- C9's witness primary-key constraint. -/
def c9PK : Constraint := .primaryKey ["id"] none

/-- C9's witness foreign-key constraint. -/
def c9FK : Constraint := .foreignKey [("owner", "users.id")] none

/-- C9 witness: swapping the two constraints (and prepending an unsupported
one) leaves the rendered create-table statement byte-identical. -/
theorem c9_constraint_order_determinism_witness :
    _upgrade_table ⟨"t", [], [c9PK, c9FK]⟩ =
      _upgrade_table ⟨"t", [], [c9FK, c9PK]⟩ ∧
    _upgrade_table ⟨"t", [], [Constraint.unsupported "IndexLike", c9PK, c9FK]⟩
      = _upgrade_table ⟨"t", [], [c9PK, c9FK]⟩ :=
  c9_constraint_order_determinism "t" [] [c9PK, c9FK] [c9FK, c9PK]
    "IndexLike" (List.Perm.swap c9FK c9PK [])

/-! ## More structure lemmas for the ordering / pairing claims -/

theorem colTable_of_mem_tableSection {s : Snapshot} {m : MetaData}
    {t' : String} {d : Diff} (h : d ∈ tableSection s m t') :
    d.colTable? = some t' := by
  unfold tableSection at h
  split at h
  · exact colTable_of_mem_compare_columns h
  · cases h

/-- The whole diff sequence filtered by a predicate that rejects all
table-level diffs reduces to the common-table sections' filters. -/
theorem net_filter_eq_joinMap (s : Snapshot) (m : MetaData) (p : Diff → Bool)
    (hup : ∀ T, p (.upgradeTable T) = false)
    (hdown : ∀ n, p (.downgradeTable n) = false) :
    (_produce_net_changes s m).filter p =
      joinMap (fun t' => (tableSection s m t').filter p)
        (setIntersect (s.tables.map (·.1)) (m.tables.map (·.name))) := by
  simp only [_produce_net_changes]
  rw [List.filter_append, List.filter_append, filter_joinMap,
    filter_upgradeTables_nil hup, filter_downgradeTables_nil hdown,
    List.nil_append, List.nil_append]

/-- One table's section filtered by a predicate that rejects column adds and
drops reduces to the common-column alter sections' filters. -/
theorem compare_columns_filter_eq_joinMap (t : String)
    (cc : List ConnColumn) (mt : Table) (p : Diff → Bool)
    (hupcol : ∀ col, p (.upgradeColumn t col) = false)
    (hdowncol : ∀ c', p (.downgradeColumn t c') = false) :
    (_compare_columns t cc mt).filter p =
      joinMap (fun c' => (alterSection t cc mt c').filter p)
        (setIntersect (mt.c.map (·.name)) (cc.map (·.name))) := by
  simp only [_compare_columns]
  rw [List.filter_append, List.filter_append, filter_joinMap,
    filter_upgradeColumns_nil hupcol, filter_downgradeColumns_nil hdowncol,
    List.nil_append, List.nil_append]

theorem alterSection_type_pairing (t : String) (cc : List ConnColumn)
    (mt : Table) (c : String) :
    ((alterSection t cc mt c).filter Diff.isUpgradeType).length =
      ((alterSection t cc mt c).filter Diff.isDowngradeType).length := by
  unfold alterSection
  split
  · rename_i mcol ccol hm hc
    rw [List.filter_append, List.filter_append, List.length_append,
      List.length_append]
    have h1 : ((_compare_type t c ccol.type mcol.type).filter
        Diff.isUpgradeType).length =
        ((_compare_type t c ccol.type mcol.type).filter
          Diff.isDowngradeType).length := by
      rcases compare_type_cases t c ccol.type mcol.type with h | h <;>
        rw [h] <;> rfl
    have h2 : ((_compare_nullable t c ccol.nullable mcol.nullable).filter
        Diff.isUpgradeType).length =
        ((_compare_nullable t c ccol.nullable mcol.nullable).filter
          Diff.isDowngradeType).length := by
      rcases compare_nullable_cases t c ccol.nullable mcol.nullable with
        h | h <;> rw [h] <;> rfl
    rw [h1, h2]
  · rfl

theorem alterSection_nullable_pairing (t : String) (cc : List ConnColumn)
    (mt : Table) (c : String) :
    ((alterSection t cc mt c).filter Diff.isUpgradeNullable).length =
      ((alterSection t cc mt c).filter Diff.isDowngradeNullable).length := by
  unfold alterSection
  split
  · rename_i mcol ccol hm hc
    rw [List.filter_append, List.filter_append, List.length_append,
      List.length_append]
    have h1 : ((_compare_type t c ccol.type mcol.type).filter
        Diff.isUpgradeNullable).length =
        ((_compare_type t c ccol.type mcol.type).filter
          Diff.isDowngradeNullable).length := by
      rcases compare_type_cases t c ccol.type mcol.type with h | h <;>
        rw [h] <;> rfl
    have h2 : ((_compare_nullable t c ccol.nullable mcol.nullable).filter
        Diff.isUpgradeNullable).length =
        ((_compare_nullable t c ccol.nullable mcol.nullable).filter
          Diff.isDowngradeNullable).length := by
      rcases compare_nullable_cases t c ccol.nullable mcol.nullable with
        h | h <;> rw [h] <;> rfl
    rw [h1, h2]
  · rfl

theorem pairwise_le_of_const {l : List Nat} {k : Nat}
    (h : ∀ x ∈ l, x = k) : l.Pairwise (· ≤ ·) := by
  induction l with
  | nil => exact List.Pairwise.nil
  | cons a r ih =>
    refine List.Pairwise.cons ?_ (ih fun x hx => h x (List.mem_cons_of_mem a hx))
    intro b hb
    rw [h a (List.mem_cons_self a r), h b (List.mem_cons_of_mem a hb)]

theorem phaseRank_eq_two_of_colTable {d : Diff} {t : String}
    (h : d.colTable? = some t) : phaseRank d = 2 := by
  cases d <;> first | rfl | cases h

/-! ## Claim C2: counterexample and amended statement -/

/-- C2's counterexample model table. -/
def c2Table : Table :=
  ⟨"widgets", [⟨"id", ⟨.other "integer", none, none, none, "INTEGER"⟩,
    some false, none⟩], []⟩

/-- C2's counterexample snapshot: empty live schema. -/
def c2Snap : Snapshot := ⟨[]⟩

/-- C2's counterexample model: the one table `widgets`. -/
def c2Meta : MetaData := ⟨[c2Table]⟩

/-- C2 counterexample: a model-only table yields exactly one forward
add-table diff and **no** reverse diff at all — the emitted sequence holds
no drop-table counterpart, refuting "each Change has exactly one
structurally inverse counterpart of the opposite direction". -/
theorem c2_counterexample_no_reverse_counterpart :
    _produce_net_changes c2Snap c2Meta = [Diff.upgradeTable c2Table] ∧
    (_produce_net_changes c2Snap c2Meta).filter Diff.isDowngradeTable = []
    := by
  constructor <;> rfl

/-- C2 amended: adds and drops are emitted in a single direction only — a
model-only table yields exactly one forward add-table diff and no reverse
drop-table diff for that name — while the alter diffs (type, nullable) are
the ones emitted in forward/reverse pairs (equal counts of each
direction). -/
theorem c2_amended_single_direction_adds_paired_alters (s : Snapshot)
    (m : MetaData) (tn : String)
    (hmem : tn ∈ m.tables.map (·.name))
    (hnot : tn ∉ s.tables.map (·.1)) :
    ((_produce_net_changes s m).filter (isUpgradeTableNamed tn)).length = 1
    ∧ (_produce_net_changes s m).filter (isDowngradeTableNamed tn) = []
    ∧ ((_produce_net_changes s m).filter Diff.isUpgradeType).length =
        ((_produce_net_changes s m).filter Diff.isDowngradeType).length
    ∧ ((_produce_net_changes s m).filter Diff.isUpgradeNullable).length =
        ((_produce_net_changes s m).filter Diff.isDowngradeNullable).length
    := by
  refine ⟨?_, ?_, ?_, ?_⟩
  · -- exactly one forward add-table diff named tn
    simp only [_produce_net_changes]
    rw [List.filter_append, List.filter_append, filter_joinMap,
      filter_downgradeTables_nil (fun n => rfl)]
    have h3 : joinMap (fun t' => (tableSection s m t').filter
        (isUpgradeTableNamed tn))
        (setIntersect (s.tables.map (·.1)) (m.tables.map (·.name))) = [] := by
      apply joinMap_eq_nil
      intro t' _
      rw [List.filter_eq_nil_iff]
      intro d hd hp
      have hcol := colTable_of_mem_tableSection hd
      cases d <;> first | cases hp | cases hcol
    rw [h3, List.append_nil, List.append_nil]
    rw [filterMap_eq_joinMap, filter_joinMap]
    have htn : tn ∈ setDiff (m.tables.map (·.name)) (s.tables.map (·.1)) :=
      mem_setDiff.mpr ⟨hmem, hnot⟩
    rcases metaTablesGet_isSome_of_mem hmem with ⟨T, hT⟩
    rw [joinMap_eq_of_single (nodup_setDiff _ _) htn ?hz]
    · rw [hT]
      have hname : T.name = tn := metaTablesGet_name hT
      simp [isUpgradeTableNamed, hname]
    case hz =>
      intro t' _ hne
      cases hT' : metaTablesGet m t' with
      | none => rfl
      | some T' =>
        have : T'.name = t' := metaTablesGet_name hT'
        simp [isUpgradeTableNamed, this, hne]
  · -- no reverse drop-table diff named tn
    simp only [_produce_net_changes]
    rw [List.filter_append, List.filter_append, filter_joinMap,
      filter_upgradeTables_nil (fun T => rfl)]
    have h3 : joinMap (fun t' => (tableSection s m t').filter
        (isDowngradeTableNamed tn))
        (setIntersect (s.tables.map (·.1)) (m.tables.map (·.name))) = [] := by
      apply joinMap_eq_nil
      intro t' _
      rw [List.filter_eq_nil_iff]
      intro d hd hp
      have hcol := colTable_of_mem_tableSection hd
      cases d <;> first | cases hp | cases hcol
    rw [h3]
    have h2 : ((setDiff (s.tables.map (·.1)) (m.tables.map (·.name))).map
        Diff.downgradeTable).filter (isDowngradeTableNamed tn) = [] := by
      rw [List.filter_eq_nil_iff]
      intro d hd hp
      rcases List.mem_map.mp hd with ⟨n, hn, rfl⟩
      have : n = tn := beq_iff_eq.mp hp
      subst this
      exact (mem_setDiff.mp hn).2 hmem
    rw [h2]
    rfl
  · -- type alters come in forward/reverse pairs
    rw [net_filter_eq_joinMap s m Diff.isUpgradeType (fun T => rfl)
        (fun n => rfl),
      net_filter_eq_joinMap s m Diff.isDowngradeType (fun T => rfl)
        (fun n => rfl)]
    apply joinMap_length_congr
    intro t' _
    unfold tableSection
    split
    · rw [compare_columns_filter_eq_joinMap _ _ _ _ (fun col => rfl)
          (fun c' => rfl),
        compare_columns_filter_eq_joinMap _ _ _ _ (fun col => rfl)
          (fun c' => rfl)]
      apply joinMap_length_congr
      intro c' _
      exact alterSection_type_pairing t' _ _ c'
    · rfl
  · -- nullable alters come in forward/reverse pairs
    rw [net_filter_eq_joinMap s m Diff.isUpgradeNullable (fun T => rfl)
        (fun n => rfl),
      net_filter_eq_joinMap s m Diff.isDowngradeNullable (fun T => rfl)
        (fun n => rfl)]
    apply joinMap_length_congr
    intro t' _
    unfold tableSection
    split
    · rw [compare_columns_filter_eq_joinMap _ _ _ _ (fun col => rfl)
          (fun c' => rfl),
        compare_columns_filter_eq_joinMap _ _ _ _ (fun col => rfl)
          (fun c' => rfl)]
      apply joinMap_length_congr
      intro c' _
      exact alterSection_nullable_pairing t' _ _ c'
    · rfl

/-- C2 amended witness: the concrete model-only table of the counterexample
schema satisfies the amended statement. -/
theorem c2_amended_single_direction_witness :
    ((_produce_net_changes c2Snap c2Meta).filter
      (isUpgradeTableNamed "widgets")).length = 1
    ∧ (_produce_net_changes c2Snap c2Meta).filter
        (isDowngradeTableNamed "widgets") = []
    ∧ ((_produce_net_changes c2Snap c2Meta).filter
        Diff.isUpgradeType).length =
      ((_produce_net_changes c2Snap c2Meta).filter
        Diff.isDowngradeType).length
    ∧ ((_produce_net_changes c2Snap c2Meta).filter
        Diff.isUpgradeNullable).length =
      ((_produce_net_changes c2Snap c2Meta).filter
        Diff.isDowngradeNullable).length :=
  c2_amended_single_direction_adds_paired_alters c2Snap c2Meta "widgets"
    (by decide) (by decide)

/-! ## Claim C3: a snapshot-only column -/

/-- C3's counterexample snapshot: table `t` with the one column `c`. -/
def c3Snap : Snapshot :=
  ⟨[("t", [⟨"c", ⟨.other "integer", none, none, none, "INTEGER"⟩,
    some true⟩])]⟩

/-- C3's counterexample model: table `t` with no columns. -/
def c3Meta : MetaData := ⟨[⟨"t", [], []⟩]⟩

/-- C3 counterexample: for a column present only in the snapshot the diff
holds exactly one record — a reverse-direction (`downgrade_`-tagged)
drop-column — and no forward-direction record at all, refuting both the
claimed forward drop-column and the claimed reverse add-column that would
recreate the original definition. -/
theorem c3_counterexample_reverse_drop_only :
    _produce_net_changes c3Snap c3Meta = [Diff.downgradeColumn "t" "c"] ∧
    (_produce_net_changes c3Snap c3Meta).filter Diff.isForward = [] := by
  constructor <;> rfl

/-- C3 amended: a column present in the snapshot's table but absent from the
model's yields exactly one Change mentioning it — a reverse-direction
drop-column carrying only the table and column names (so nothing recreates
the original definition, which the Change does not even capture) — and the
forward partition holds no Change mentioning that column. -/
theorem c3_amended_snapshot_only_column_drops_in_reverse (s : Snapshot)
    (m : MetaData) (tn cn : String) (ccols : List ConnColumn) (mtab : Table)
    (hs : connColsGet s tn = some ccols)
    (hm : metaTablesGet m tn = some mtab)
    (hcn : cn ∈ ccols.map (·.name))
    (hnot : cn ∉ mtab.c.map (·.name)) :
    (_produce_net_changes s m).filter (mentionsCol tn cn) =
      [Diff.downgradeColumn tn cn] ∧
    (_produce_net_changes s m).filter
      (fun d => Diff.isForward d && mentionsCol tn cn d) = [] := by
  have hmain : (_produce_net_changes s m).filter (mentionsCol tn cn) =
      [Diff.downgradeColumn tn cn] := by
    rw [filter_net_changes_of_table s m (mentionsCol tn cn) tn
      (fun T => rfl) (fun n => rfl) ?honly]
    case honly =>
      intro d hp
      cases d <;> simp only [mentionsCol] at hp <;> try cases hp
      all_goals
        rcases Bool.and_eq_true_iff.mp hp with ⟨h1, h2⟩
        rw [Diff.colTable?, beq_iff_eq.mp h1]
    simp only [hs, hm]
    simp only [_compare_columns]
    rw [List.filter_append, List.filter_append, filter_joinMap]
    have h1 : ((setDiff (mtab.c.map (·.name)) (ccols.map (·.name))).filterMap
        (fun cname => (metaColGet mtab cname).map
          (Diff.upgradeColumn tn))).filter (mentionsCol tn cn) = [] := by
      rw [List.filter_eq_nil_iff]
      intro d hd hp
      rcases List.mem_filterMap.mp hd with ⟨c', hc', hmap⟩
      rcases Option.map_eq_some'.mp hmap with ⟨col, hcol, rfl⟩
      have hname : col.name = c' := metaColGet_name hcol
      simp only [mentionsCol, hname] at hp
      rcases Bool.and_eq_true_iff.mp hp with ⟨_, h2⟩
      have : c' = cn := beq_iff_eq.mp h2
      subst this
      exact hnot (mem_setDiff.mp hc').1
    have h2 : ((setDiff (ccols.map (·.name)) (mtab.c.map (·.name))).map
        (Diff.downgradeColumn tn)).filter (mentionsCol tn cn) =
        [Diff.downgradeColumn tn cn] := by
      rw [List.filter_map]
      have hfn : ((mentionsCol tn cn) ∘ (Diff.downgradeColumn tn)) =
          fun c' => c' == cn := by
        funext c'
        simp [mentionsCol, Function.comp]
      rw [hfn]
      rw [filter_beq_of_nodup_mem (nodup_setDiff _ _)
        (mem_setDiff.mpr ⟨hcn, hnot⟩)]
      rfl
    have h3 : joinMap (fun c' => (alterSection tn ccols mtab c').filter
        (mentionsCol tn cn))
        (setIntersect (mtab.c.map (·.name)) (ccols.map (·.name))) = [] := by
      apply joinMap_eq_nil
      intro c' hc'
      rw [List.filter_eq_nil_iff]
      intro d hd hp
      have hname := colName_of_mem_alterSection hd
      have hcn' : d.colName? = some cn := by
        cases d <;> simp only [mentionsCol] at hp <;> try cases hp
        all_goals
          rcases Bool.and_eq_true_iff.mp hp with ⟨h1', h2'⟩
          rw [Diff.colName?, beq_iff_eq.mp h2']
      rw [hname] at hcn'
      have : c' = cn := Option.some.inj hcn'
      subst this
      exact hnot (mem_setIntersect.mp hc').1
    rw [h1, h2, h3, List.nil_append, List.append_nil]
  refine ⟨hmain, ?_⟩
  rw [← List.filter_filter, hmain]
  rfl

/-- C3 amended witness: the counterexample schema instantiates the amended
statement. -/
theorem c3_amended_snapshot_only_column_witness :
    (_produce_net_changes c3Snap c3Meta).filter (mentionsCol "t" "c") =
      [Diff.downgradeColumn "t" "c"] ∧
    (_produce_net_changes c3Snap c3Meta).filter
      (fun d => Diff.isForward d && mentionsCol "t" "c" d) = [] :=
  c3_amended_snapshot_only_column_drops_in_reverse c3Snap c3Meta "t" "c"
    [⟨"c", ⟨.other "integer", none, none, none, "INTEGER"⟩, some true⟩]
    ⟨"t", [], []⟩ rfl rfl (by decide) (by decide)

/-! ## Claim C6: emission order -/

theorem colRank_two_of_mem_alterSection {t : String} {cc : List ConnColumn}
    {mt : Table} {cname : String} {d : Diff}
    (h : d ∈ alterSection t cc mt cname) : colRank d = 2 := by
  rcases mem_alterSection h with ⟨mcol, ccol, _, _, hd⟩
  rcases hd with rfl | rfl | rfl | rfl <;> rfl

/-- C6's counterexample column type (a varchar of the given length). -/
def c6VC (n : Nat) : TypeDesc :=
  ⟨.str, some n, none, none, "VARCHAR(" ++ toString n ++ ")"⟩

/-- C6's counterexample snapshot: two columns whose type and nullability
both differ from the model. -/
def c6Snap : Snapshot :=
  ⟨[("t", [⟨"c1", c6VC 50, some true⟩, ⟨"c2", c6VC 50, some true⟩])]⟩

/-- C6's counterexample model. -/
def c6Meta : MetaData :=
  ⟨[⟨"t", [⟨"c1", c6VC 100, some false, none⟩,
    ⟨"c2", c6VC 100, some false, none⟩], []⟩]⟩

/-- C6 counterexample: with two common columns each differing in type and
nullability, the table's column-level diffs come out
type(c1), nullable(c1), type(c2), nullable(c2) — the nullable-alter of `c1`
precedes the type-alter of `c2`, refuting the claimed
"type-alters before nullable-alters within each table" grouping
(`claimColRank` maps adds, drops, type-alters, nullable-alters to
0, 1, 2, 3). -/
theorem c6_counterexample_alters_interleave_per_column :
    ((_produce_net_changes c6Snap c6Meta).filter (isColLevelOf "t")).map
        claimColRank = [2, 2, 3, 3, 2, 2, 3, 3] ∧
    ¬ ((((_produce_net_changes c6Snap c6Meta).filter (isColLevelOf "t")).map
        claimColRank).Pairwise (· ≤ ·)) := by
  constructor
  · rfl
  · intro h
    rw [show ((_produce_net_changes c6Snap c6Meta).filter
        (isColLevelOf "t")).map claimColRank = [2, 2, 3, 3, 2, 2, 3, 3]
      from rfl] at h
    simp [List.pairwise_cons] at h

/-- C6 amended: the diff emits all table-level adds, then all table-level
drops, then the column-level section (`phaseRank` 0, 1, 2); within any one
table's column-level diffs, column adds precede column drops precede the
alters (`colRank` 0, 1, 2); and within any one column's alters the
type-alter pair (forward then reverse) precedes the nullable-alter pair
(`alterRank` 0, 1, 2, 3).  Alters of distinct columns interleave per
column rather than grouping all type-alters before all nullable-alters. -/
theorem c6_amended_emission_order (s : Snapshot) (m : MetaData) :
    (((_produce_net_changes s m).map phaseRank).Pairwise (· ≤ ·)) ∧
    (∀ t, ((((_produce_net_changes s m).filter (isColLevelOf t)).map
        colRank).Pairwise (· ≤ ·))) ∧
    (∀ t c, ((((_produce_net_changes s m).filter (isAlterOf t c)).map
        alterRank).Pairwise (· ≤ ·))) := by
  refine ⟨?_, ?_, ?_⟩
  · -- tables first: adds, drops, then the column-level section
    simp only [_produce_net_changes]
    rw [List.map_append, List.map_append, List.pairwise_append]
    refine ⟨?_, ?_, ?_⟩
    · rw [List.pairwise_append]
      refine ⟨?_, ?_, ?_⟩
      · apply pairwise_le_of_const (k := 0)
        intro x hx
        rcases List.mem_map.mp hx with ⟨d, hd, rfl⟩
        rcases List.mem_filterMap.mp hd with ⟨tn, _, hmap⟩
        rcases Option.map_eq_some'.mp hmap with ⟨T, _, rfl⟩
        rfl
      · apply pairwise_le_of_const (k := 1)
        intro x hx
        rcases List.mem_map.mp hx with ⟨d, hd, rfl⟩
        rcases List.mem_map.mp hd with ⟨n, _, rfl⟩
        rfl
      · intro x hx y hy
        rcases List.mem_map.mp hx with ⟨d, hd, rfl⟩
        rcases List.mem_filterMap.mp hd with ⟨tn, _, hmap⟩
        rcases Option.map_eq_some'.mp hmap with ⟨T, _, rfl⟩
        exact Nat.zero_le _
    · apply pairwise_le_of_const (k := 2)
      intro x hx
      rcases List.mem_map.mp hx with ⟨d, hd, rfl⟩
      rcases mem_joinMap.mp hd with ⟨t', _, hsec⟩
      exact phaseRank_eq_two_of_colTable (colTable_of_mem_tableSection hsec)
    · intro x hx y hy
      rcases List.mem_map.mp hy with ⟨d2, hd2, rfl⟩
      rcases mem_joinMap.mp hd2 with ⟨t', _, hsec⟩
      rw [phaseRank_eq_two_of_colTable (colTable_of_mem_tableSection hsec)]
      rcases List.mem_append.mp hx with hx1 | hx1
      · rcases List.mem_map.mp hx1 with ⟨d, hd, rfl⟩
        rcases List.mem_filterMap.mp hd with ⟨tn, _, hmap⟩
        rcases Option.map_eq_some'.mp hmap with ⟨T, _, rfl⟩
        simp [phaseRank]
      · rcases List.mem_map.mp hx1 with ⟨d, hd, rfl⟩
        rcases List.mem_map.mp hd with ⟨n, _, rfl⟩
        simp [phaseRank]
  · -- within one table: adds, drops, alters
    intro t
    rw [filter_net_changes_of_table s m (isColLevelOf t) t (fun T => rfl)
      (fun n => rfl) (fun d hp => beq_iff_eq.mp hp)]
    cases hcc : connColsGet s t with
    | none => cases hmt : metaTablesGet m t <;> simp
    | some cc =>
      cases hmt : metaTablesGet m t with
      | none => simp
      | some mt =>
        dsimp only
        have hself : (_compare_columns t cc mt).filter (isColLevelOf t) =
            _compare_columns t cc mt := by
          rw [List.filter_eq_self]
          intro d hd
          unfold isColLevelOf
          rw [colTable_of_mem_compare_columns hd]
          exact beq_self_eq_true _
        rw [hself]
        simp only [_compare_columns]
        rw [List.map_append, List.map_append, List.pairwise_append]
        refine ⟨?_, ?_, ?_⟩
        · rw [List.pairwise_append]
          refine ⟨?_, ?_, ?_⟩
          · apply pairwise_le_of_const (k := 0)
            intro x hx
            rcases List.mem_map.mp hx with ⟨d, hd, rfl⟩
            rcases List.mem_filterMap.mp hd with ⟨cn, _, hmap⟩
            rcases Option.map_eq_some'.mp hmap with ⟨col, _, rfl⟩
            rfl
          · apply pairwise_le_of_const (k := 1)
            intro x hx
            rcases List.mem_map.mp hx with ⟨d, hd, rfl⟩
            rcases List.mem_map.mp hd with ⟨cn, _, rfl⟩
            rfl
          · intro x hx y hy
            rcases List.mem_map.mp hx with ⟨d, hd, rfl⟩
            rcases List.mem_filterMap.mp hd with ⟨cn, _, hmap⟩
            rcases Option.map_eq_some'.mp hmap with ⟨col, _, rfl⟩
            exact Nat.zero_le _
        · apply pairwise_le_of_const (k := 2)
          intro x hx
          rcases List.mem_map.mp hx with ⟨d, hd, rfl⟩
          rcases mem_joinMap.mp hd with ⟨cn, _, hsec⟩
          exact colRank_two_of_mem_alterSection hsec
        · intro x hx y hy
          rcases List.mem_map.mp hy with ⟨d2, hd2, rfl⟩
          rcases mem_joinMap.mp hd2 with ⟨cn2, _, hsec⟩
          rw [colRank_two_of_mem_alterSection hsec]
          rcases List.mem_append.mp hx with hx1 | hx1
          · rcases List.mem_map.mp hx1 with ⟨d, hd, rfl⟩
            rcases List.mem_filterMap.mp hd with ⟨cn, _, hmap⟩
            rcases Option.map_eq_some'.mp hmap with ⟨col, _, rfl⟩
            simp [colRank]
          · rcases List.mem_map.mp hx1 with ⟨d, hd, rfl⟩
            rcases List.mem_map.mp hd with ⟨cn, _, rfl⟩
            simp [colRank]
  · -- within one column: the type pair, then the nullable pair
    intro t c
    rw [filter_net_changes_of_table s m (isAlterOf t c) t (fun T => rfl)
      (fun n => rfl) ?honlyT]
    case honlyT =>
      intro d hp
      cases d <;> simp only [isAlterOf] at hp <;> try cases hp
      all_goals
        rcases Bool.and_eq_true_iff.mp hp with ⟨h1, h2⟩
        rw [Diff.colTable?, beq_iff_eq.mp h1]
    cases hcc : connColsGet s t with
    | none => cases hmt : metaTablesGet m t <;> simp
    | some cc =>
      cases hmt : metaTablesGet m t with
      | none => simp
      | some mt =>
        dsimp only
        rw [filter_compare_columns_of_col t cc mt (isAlterOf t c) c
          (fun col => rfl) (fun c' => rfl) ?honlyC]
        case honlyC =>
          intro d hp
          cases d <;> simp only [isAlterOf] at hp <;> try cases hp
          all_goals
            rcases Bool.and_eq_true_iff.mp hp with ⟨h1, h2⟩
            rw [Diff.colName?, beq_iff_eq.mp h2]
        unfold alterSection
        cases hm : metaColGet mt c with
        | none => cases hc : connColGet cc c <;> simp
        | some mcol =>
          cases hc : connColGet cc c with
          | none => simp
          | some ccol =>
            have ht : (_compare_type t c ccol.type mcol.type).filter
                (isAlterOf t c) = _compare_type t c ccol.type mcol.type := by
              rw [List.filter_eq_self]
              intro d hd
              rcases mem_compare_type hd with rfl | rfl <;> simp [isAlterOf]
            have hn : (_compare_nullable t c ccol.nullable
                mcol.nullable).filter (isAlterOf t c) =
                _compare_nullable t c ccol.nullable mcol.nullable := by
              rw [List.filter_eq_self]
              intro d hd
              rcases mem_compare_nullable hd with rfl | rfl <;>
                simp [isAlterOf]
            rw [List.filter_append, ht, hn, List.map_append,
              List.pairwise_append]
            refine ⟨?_, ?_, ?_⟩
            · rcases compare_type_cases t c ccol.type mcol.type with h | h <;>
                rw [h] <;> simp [List.pairwise_cons, alterRank]
            · rcases compare_nullable_cases t c ccol.nullable mcol.nullable
                with h | h <;> rw [h] <;> simp [List.pairwise_cons, alterRank]
            · intro x hx y hy
              rcases List.mem_map.mp hx with ⟨d, hd, rfl⟩
              rcases List.mem_map.mp hy with ⟨d2, hd2, rfl⟩
              rcases mem_compare_type hd with rfl | rfl <;>
                rcases mem_compare_nullable hd2 with rfl | rfl <;>
                simp [alterRank]

end Alembic
